import Mathlib

/-!
Verification of the Mailbox Store of this repository (src/main.py).

The development shallowly embeds the two classes the claims are about:
`IndexedMboxMailbox` (per-folder store: index, fetch, delete, search) and
`MboxUser` (account directory: select, create).  The store is built on the
Python standard library objects `mailbox.mbox` and `email.message.Message`;
those are external collaborators, and the embedding models exactly the
behaviour of theirs that src/main.py calls, as documented for CPython 3.11:

* `mailbox.mbox` assigns integer keys 0..N-1 in file order when the file is
  first read; `del mbox[k]` removes the entry with key `k` (raising KeyError
  if absent) and `flush()` rewrites the file from the in-memory table of
  contents in sorted key order, PRESERVING the surviving keys (it does not
  renumber them).  Iterating the mbox yields the messages in sorted key
  order.  `flush()` writes a temporary file and renames it over the mailbox
  path, so a failed flush leaves the on-disk file unchanged.
* `Message.get("subject", "")` returns the value of the first Subject header
  (header-name lookup is case-insensitive), with the whitespace following
  the colon stripped, or "" when absent.
* `Message.get_payload(decode=True)` returns the body as bytes for a
  single-part message and `None` for a multipart message; calling `.decode`
  on that `None` raises AttributeError.
* `bytes.decode(errors="ignore")` never raises: undecodable byte sequences
  are dropped.
* `Message.as_string()` re-serializes the parsed message canonically: each
  header as "Name: value" followed by a newline, then a blank line, then
  the body verbatim.
-/

set_option autoImplicit false

namespace PyMailArchive

/-- Python str.lower applied characterwise (adequate for the ASCII data the
claims are about). -/
def pyLower (s : String) : String := ⟨s.data.map Char.toLower⟩

/-- Does the first list occur at the head of the second one? -/
def leadsWith : List Char → List Char → Bool
  | [], _ => true
  | _ :: _, [] => false
  | a :: as, b :: bs => a == b && leadsWith as bs

/-- Does the first list occur contiguously anywhere inside the second one?
This is Python's substring test. -/
def occursIn (n : List Char) : List Char → Bool
  | [] => leadsWith n []
  | l@(_ :: t) => leadsWith n l || occursIn n t

/-- Python `needle in hay` on strings. -/
def pyIn (needle hay : String) : Bool := occursIn needle.data hay.data

/-- Is the byte a UTF-8 continuation byte? -/
def contByte (b : Nat) : Bool := 0x80 ≤ b && b ≤ 0xBF

/-- Decode one UTF-8 sequence starting at byte `b` with remaining input
`rest`: the decoded character (`none` when `b` starts no valid sequence)
and how many bytes of `rest` were consumed in addition to `b`. -/
def decodeStep (b : Nat) (rest : List Nat) : Option Char × Nat :=
  if b < 0x80 then (some (Char.ofNat b), 0)
  else if 0xC2 ≤ b && b ≤ 0xDF then
    match rest with
    | b2 :: _ =>
      if contByte b2 then (some (Char.ofNat ((b - 0xC0) * 64 + (b2 - 0x80))), 1)
      else (none, 0)
    | [] => (none, 0)
  else if 0xE0 ≤ b && b ≤ 0xEF then
    match rest with
    | b2 :: b3 :: _ =>
      if (if b == 0xE0 then 0xA0 ≤ b2 && b2 ≤ 0xBF
          else if b == 0xED then 0x80 ≤ b2 && b2 ≤ 0x9F
          else contByte b2) && contByte b3 then
        (some (Char.ofNat ((b - 0xE0) * 4096 + (b2 - 0x80) * 64 + (b3 - 0x80))), 2)
      else (none, 0)
    | _ => (none, 0)
  else if 0xF0 ≤ b && b ≤ 0xF4 then
    match rest with
    | b2 :: b3 :: b4 :: _ =>
      if (if b == 0xF0 then 0x90 ≤ b2 && b2 ≤ 0xBF
          else if b == 0xF4 then 0x80 ≤ b2 && b2 ≤ 0x8F
          else contByte b2) && contByte b3 && contByte b4 then
        (some (Char.ofNat ((b - 0xF0) * 262144 + (b2 - 0x80) * 4096 +
                           (b3 - 0x80) * 64 + (b4 - 0x80))), 3)
      else (none, 0)
    | _ => (none, 0)
  else (none, 0)

/-- Python `bytes.decode(errors="ignore")`: total UTF-8 decoding that drops
invalid bytes instead of raising.  The continuation bytes reported consumed
by `decodeStep` are discarded by matching their shape, keeping the
recursion structural. -/
def utf8DecodeIgnore : List Nat → List Char
  | [] => []
  | b :: rest =>
    let p := decodeStep b rest
    (match p.1 with
     | some c => [c]
     | none => []) ++
    (match p.2, rest with
     | 1, _ :: r => utf8DecodeIgnore r
     | 2, _ :: _ :: r => utf8DecodeIgnore r
     | 3, _ :: _ :: _ :: r => utf8DecodeIgnore r
     | _, r => utf8DecodeIgnore r)

/-- UTF-8 encoding of one character. -/
def utf8EncodeChar (c : Char) : List Nat :=
  let n := c.toNat
  if n < 0x80 then [n]
  else if n < 0x800 then [0xC0 + n / 64, 0x80 + n % 64]
  else if n < 0x10000 then
    [0xE0 + n / 4096, 0x80 + n / 64 % 64, 0x80 + n % 64]
  else
    [0xF0 + n / 262144, 0x80 + n / 4096 % 64, 0x80 + n / 64 % 64, 0x80 + n % 64]

/-- Python `str.encode("utf-8")`. -/
def utf8Encode (s : String) : List Nat := (s.data.map utf8EncodeChar).flatten

/-- In-memory Message Handle: the three observables of the parsed message
object that src/main.py reads.  `subject` is `msg.get("subject")` (first
Subject header value, `none` when the header is absent); `payload` is
`msg.get_payload(decode=True)` (`some` body bytes for a single-part message,
`none` for a multipart one); `asStringOut` is `msg.as_string()`. -/
structure Msg where
  subject : Option String
  payload : Option (List Nat)
  asStringOut : String
deriving DecidableEq, Repr

/-- First-match association-list lookup: Python dict membership/indexing. -/
def lookupKey {κ α : Type} [DecidableEq κ] (k : κ) : List (κ × α) → Option α
  | [] => none
  | p :: rest => if p.1 = k then some p.2 else lookupKey k rest

/-- In-memory state of a `mailbox.mbox` object: the table of contents
(key ↦ message, in ascending key order — the iteration order) and the
flushed content of the on-disk file. -/
structure Mbox where
  toc : List (Nat × Msg)
  file : List Msg
deriving DecidableEq, Repr

/-- Opening `mailbox.mbox(path)` on a file holding `msgs` in order: keys
0..N-1 are assigned in file order. -/
def mboxOpen (msgs : List Msg) : Mbox := ⟨msgs.enum, msgs⟩

/-- `del mbox[k]` on the table of contents: `none` models the KeyError
raised when the key is absent.  Keys of the survivors are unchanged. -/
def tocDel (k : Nat) (t : List (Nat × Msg)) : Option (List (Nat × Msg)) :=
  if t.any (fun p => p.1 == k) then some (t.filter (fun p => p.1 != k)) else none

/-- `mbox.flush()`: rewrite the file from the table of contents in key
order; surviving keys are preserved, not renumbered. -/
def mboxFlush (m : Mbox) : Mbox := ⟨m.toc, m.toc.map Prod.snd⟩

/-- State of one `IndexedMboxMailbox`: the underlying mbox object plus the
fields `self.messages` and `self.index` (insertion-ordered dict, here an
association list in insertion order). -/
structure Mailbox where
  mbox : Mbox
  messages : List Msg
  index : List (Nat × Msg)
deriving DecidableEq, Repr

/-- `IndexedMboxMailbox._load_index`: `self.messages = list(self.mbox)`
(key-order values) and `self.index = {i + 1: msg for i, msg in
enumerate(self.messages)}`. -/
def loadIndex (st : Mailbox) : Mailbox :=
  let msgs := st.mbox.toc.map Prod.snd
  { st with messages := msgs, index := List.enumFrom 1 msgs }

/-- `IndexedMboxMailbox.__init__` for a folder whose mbox file parses to
`fileMsgs`: open the mbox, then build the index. -/
def newMailbox (fileMsgs : List Msg) : Mailbox :=
  loadIndex { mbox := mboxOpen fileMsgs, messages := [], index := [] }

/-- Failures a read operation can report. -/
inductive PyErr where
  /-- `defer.fail(imap4.MailboxException("Message not found"))`. -/
  | notFound
  /-- Uncaught AttributeError: `None.decode` on a multipart payload. -/
  | attributeError
deriving DecidableEq, Repr

/-- Outcomes of `deleteMessage`. -/
inductive DelOutcome where
  /-- `defer.succeed(True)`. -/
  | ok
  /-- `defer.fail(imap4.MailboxException("Message not found"))`. -/
  | notFound
  /-- Uncaught KeyError raised by `del self.mbox[message_id - 1]`. -/
  | keyError
  /-- Uncaught I/O error raised by `self.mbox.flush()`. -/
  | ioError
deriving DecidableEq, Repr

/-- `IndexedMboxMailbox.getMessageCount` (always succeeds; the deferred
wrapper is omitted since the value is total by construction). -/
def getMessageCount (st : Mailbox) : Nat := st.messages.length

/-- `IndexedMboxMailbox.fetchMessage`: on a hit, returns
`self.index[message_id].as_string().encode("utf-8")`. -/
def fetchMessage (message_id : Nat) (st : Mailbox) : Except PyErr (List Nat) :=
  match lookupKey message_id st.index with
  | some m => .ok (utf8Encode m.asStringOut)
  | none => .error .notFound

/-- `IndexedMboxMailbox.deleteMessage`: membership test on the index, then
`del self.mbox[message_id - 1]`, then `flush()` (whose success is modelled
by the `flushOk` oracle), then `_load_index()`.  Returns the outcome and
the state of the object afterwards. -/
def deleteMessage (flushOk : Bool) (message_id : Nat) (st : Mailbox) :
    DelOutcome × Mailbox :=
  match lookupKey message_id st.index with
  | some _ =>
    match tocDel (message_id - 1) st.mbox.toc with
    | none => (.keyError, st)
    | some t =>
      if flushOk then
        (.ok, loadIndex { st with mbox := mboxFlush ⟨t, st.mbox.file⟩ })
      else
        (.ioError, { st with mbox := ⟨t, st.mbox.file⟩ })
  | none => (.notFound, st)

/-- `query.lower() in msg.get("subject", "").lower()`. -/
def msgSubjectHit (query : String) (m : Msg) : Bool :=
  pyIn (pyLower query) (pyLower (m.subject.getD ""))

/-- `query.lower() in msg.get_payload(decode=True).decode(errors="ignore").lower()`
for a single-part payload `bs`. -/
def msgBodyHit (query : String) (bs : List Nat) : Bool :=
  pyIn (pyLower query) (pyLower ⟨utf8DecodeIgnore bs⟩)

/-- The loop body of `IndexedMboxMailbox.search` over the index entries:
Python's `or` short-circuits, so the payload is only touched when the
subject does not match; a multipart payload (`none`) then raises. -/
def searchEntries (query : String) : List (Nat × Msg) → Except PyErr (List Nat)
  | [] => .ok []
  | (i, m) :: rest =>
    if msgSubjectHit query m then (searchEntries query rest).map (fun l => i :: l)
    else
      match m.payload with
      | none => .error .attributeError
      | some bs =>
        if msgBodyHit query bs then (searchEntries query rest).map (fun l => i :: l)
        else searchEntries query rest

/-- `IndexedMboxMailbox.search`. -/
def search (query : String) (st : Mailbox) : Except PyErr (List Nat) :=
  searchEntries query st.index

/-- Pure per-message match used to state what `search` computes when it
does not raise. -/
def msgMatches (query : String) (m : Msg) : Bool :=
  msgSubjectHit query m ||
    (match m.payload with
     | none => false
     | some bs => msgBodyHit query bs)

/-- State of one `MboxUser`: `self.mailboxes` maps folder names to store
references; the stores themselves live in `heap`.  Distinct references
model distinct `IndexedMboxMailbox` objects. -/
structure Account where
  mailboxes : List (String × Nat)
  heap : List (Nat × Mailbox)
  nextRef : Nat
deriving DecidableEq, Repr

/-- Python dict assignment `d[name] = r`: replace the binding in place when
the name is present, append it otherwise. -/
def bindName (name : String) (r : Nat) : List (String × Nat) → List (String × Nat)
  | [] => [(name, r)]
  | p :: rest => if p.1 = name then (name, r) :: rest else p :: bindName name r rest

/-- `MboxUser.__init__`: the directory is seeded with "INBOX".  `fs` maps a
folder name to the parsed content of its mbox file. -/
def newAccount (fs : String → List Msg) : Account :=
  { mailboxes := [("INBOX", 0)], heap := [(0, newMailbox (fs "INBOX"))], nextRef := 1 }

/-- `MboxUser.select` (with the folder name already UTF-8 decoded): return
the registered store, creating and registering a fresh one first when the
name is unseen. -/
def select (fs : String → List Msg) (name : String) (acc : Account) :
    Account × Nat :=
  match lookupKey name acc.mailboxes with
  | some r => (acc, r)
  | none =>
    let r := acc.nextRef
    ({ mailboxes := bindName name r acc.mailboxes,
       heap := acc.heap ++ [(r, newMailbox (fs name))],
       nextRef := r + 1 }, r)

/-- `MboxUser.create`: unconditionally construct a fresh store for the name
(re-reading its backing file) and rebind the name to it; always returns
`defer.succeed(True)`. -/
def create (fs : String → List Msg) (path : String) (acc : Account) :
    Account × Bool :=
  let r := acc.nextRef
  ({ mailboxes := bindName path r acc.mailboxes,
     heap := acc.heap ++ [(r, newMailbox (fs path))],
     nextRef := r + 1 }, true)

/-- The structural invariant `_load_index` establishes: the index is the
1-based enumeration of `self.messages`. -/
def WF (st : Mailbox) : Prop := st.index = List.enumFrom 1 st.messages

instance (st : Mailbox) : Decidable (WF st) :=
  inferInstanceAs (Decidable (st.index = List.enumFrom 1 st.messages))

instance : DecidableEq (Except PyErr (List Nat)) := fun a b =>
  match a, b with
  | .ok x, .ok y => decidable_of_iff (x = y) (by simp)
  | .error x, .error y => decidable_of_iff (x = y) (by simp)
  | .ok _, .error _ => isFalse (by simp)
  | .error _, .ok _ => isFalse (by simp)

/-! ### Parsing and re-serialization of simple messages

src/main.py never serializes a message back as raw bytes: `fetchMessage`
returns `as_string().encode("utf-8")`, the re-serialization of the parsed
message.  To compare that with the bytes a message arrived as, we model the
email parser on a restricted class of messages (single-part, ASCII,
unfolded headers); `parseSimple` returns `none` outside the class.  On this
class the model matches CPython 3.11 exactly: a header line is split at its
first colon and the whitespace after the colon is stripped from the value;
`as_string()` prints each header as "Name: value", one space, whatever the
original spacing was. -/

/-- Characters CPython's parser accepts in a header name (printable ASCII
other than the colon); a leading space would instead mark a folded
continuation line, which is outside the modelled class. -/
def headerNameChar (c : Char) : Bool :=
  33 ≤ c.toNat && c.toNat ≤ 126 && c.toNat != 58

/-- Split a character list at its first newline: `some (line, rest)`, or
`none` when it holds no newline. -/
def splitAtNewline : List Char → Option (List Char × List Char)
  | [] => none
  | c :: cs =>
    if c = '\n' then some ([], cs)
    else
      match splitAtNewline cs with
      | none => none
      | some (l, r) => some (c :: l, r)

/-- Parse one header line "Name:value": split at the first colon, strip
spaces and tabs after it.  `none` when the line has no colon or the name is
not a plain header name. -/
def parseHeaderLine (l : List Char) : Option (String × String) :=
  let name := l.takeWhile (fun c => c.toNat != 58)
  match l.dropWhile (fun c => c.toNat != 58) with
  | [] => none
  | _ :: afterColon =>
    if name.isEmpty then none
    else if name.all headerNameChar then
      some (⟨name⟩, ⟨afterColon.dropWhile (fun c => c == ' ' || c == '\t')⟩)
    else none

/-- Parse the header section and body: header lines up to the first blank
line, then the body verbatim.  A trailing header line without a newline and
a missing blank-line separator are accepted (the body is then empty), as in
CPython.  Fuel keeps the recursion structural; each step strictly shortens
the input, so `parseLines` below never exhausts it. -/
def parseLinesF : Nat → List Char → Option (List (String × String) × String)
  | 0, _ => none
  | fuel + 1, cs =>
    match splitAtNewline cs with
    | none =>
      if cs.isEmpty then some ([], "")
      else
        match parseHeaderLine cs with
        | some hd => some ([hd], "")
        | none => none
    | some (line, rest) =>
      if line.isEmpty then some ([], ⟨rest⟩)
      else
        match parseHeaderLine line with
        | some hd =>
          match parseLinesF fuel rest with
          | some (hs, body) => some (hd :: hs, body)
          | none => none
        | none => none

/-- Header/body split of a whole message text. -/
def parseLines (cs : List Char) : Option (List (String × String) × String) :=
  parseLinesF (cs.length + 1) cs

/-- A parsed simple message: header (name, value) pairs in order, and the
body. -/
structure SimpleMsg where
  headers : List (String × String)
  body : String
deriving DecidableEq, Repr

/-- Modelled parse of one message's bytes by the email library, on the
restricted class: ASCII bytes, plain unfolded headers, and no
Content-Type / Content-Transfer-Encoding header (so the message is
single-part and its payload is the body verbatim).  `none` outside the
class. -/
def parseSimple (bs : List Nat) : Option SimpleMsg :=
  if bs.all (fun b => b < 128) then
    match parseLines (bs.map Char.ofNat) with
    | some (hs, body) =>
      if hs.all (fun hd => pyLower hd.1 != "content-type" &&
                           pyLower hd.1 != "content-transfer-encoding") then
        some ⟨hs, body⟩
      else none
    | none => none
  else none

/-- One serialized header line "Name: value" as printed by
`Message.as_string()`. -/
def headerLineChars (hd : String × String) : List Char :=
  hd.1.data ++ [':', ' '] ++ hd.2.data ++ ['\n']

/-- The canonical serialization of header section plus body: header lines,
a blank line, then the body verbatim. -/
def messageChars (hs : List (String × String)) (body : String) : List Char :=
  (hs.map headerLineChars).flatten ++ '\n' :: body.data

/-- `Message.as_string()` for a simple message. -/
def asStringSimple (m : SimpleMsg) : String :=
  ⟨messageChars m.headers m.body⟩

/-- The Message Handle the store sees for a parsed simple message:
`get("subject")` finds the first Subject header case-insensitively;
`get_payload(decode=True)` is the body's bytes (no transfer encoding in the
class); `as_string()` is the canonical re-serialization. -/
def toMsg (m : SimpleMsg) : Msg :=
  { subject := (m.headers.find? (fun hd => pyLower hd.1 == "subject")).map Prod.snd,
    payload := some (m.body.data.map Char.toNat),
    asStringOut := asStringSimple m }

/-- One header of a canonical message: plain name, single-line ASCII value
with no leading whitespace, and not a content-typing header. -/
def wfHeader (hd : String × String) : Bool :=
  !hd.1.data.isEmpty && hd.1.data.all headerNameChar &&
  hd.2.data.all (fun c => c.toNat < 128 && c.toNat != 10) &&
  (match hd.2.data with
   | [] => true
   | c :: _ => !(c == ' ' || c == '\t')) &&
  pyLower hd.1 != "content-type" && pyLower hd.1 != "content-transfer-encoding"

/-- Does some line of the string start with "From "?  Such a line would be
read as an mbox message separator, so canonical messages exclude it. -/
def hasFromLine (s : String) : Bool :=
  leadsWith "From ".data s.data || occursIn "\nFrom ".data s.data

/-- A canonical simple message: its serialized form is exactly the byte
sequence an external writer appends for it, and parsing gives it back. -/
def wellFormed (m : SimpleMsg) : Bool :=
  m.headers.all wfHeader &&
  m.body.data.all (fun c => c.toNat < 128) &&
  !hasFromLine (asStringSimple m)

/-! ### Concrete messages used as instances -/

/-- A single-part message with subject "A". -/
def msgA : Msg := ⟨some "A", some [97], "A"⟩

/-- A single-part message with subject "B". -/
def msgB : Msg := ⟨some "B", some [98], "B"⟩

/-- A single-part message with subject "C". -/
def msgC : Msg := ⟨some "C", some [99], "C"⟩

/-- A single-part message with subject "D". -/
def msgD : Msg := ⟨some "D", some [100], "D"⟩

/-- A multipart message: `get_payload(decode=True)` is `None`. -/
def multipartA : Msg := ⟨some "weekly report", none, "weekly report"⟩

/-- The message of the spec's search example: subject "Invoice #4",
body "thanks". -/
def invoiceMsg : Msg := ⟨some "Invoice #4", some (utf8Encode "thanks"), "Invoice #4"⟩

/-- A message whose payload bytes are entirely undecodable UTF-8. -/
def badBytesMsg : Msg := ⟨some "hello", some [255, 254], "hello"⟩

/-- A message without a Subject header, body "world". -/
def worldMsg : Msg := ⟨none, some (utf8Encode "world"), "world"⟩

/-! ### Helper lemmas -/

theorem lookupKey_enumFrom {α : Type} (l : List α) (n i : Nat) (h : i < l.length) :
    lookupKey (n + i) (List.enumFrom n l) = some l[i] := by
  induction l generalizing n i with
  | nil => simp at h
  | cons a t ih =>
    rw [List.enumFrom_cons]
    cases i with
    | zero => simp [lookupKey]
    | succ j =>
      have h' : j < t.length := by simpa using h
      have hr := ih (n + 1) j h'
      simp only [lookupKey, List.getElem_cons_succ]
      rw [if_neg (show ¬(n = n + (j + 1)) by omega)]
      rw [show n + (j + 1) = n + 1 + j by omega]
      exact hr

theorem lookupKey_mem {κ α : Type} [DecidableEq κ] {k : κ} {v : α} :
    ∀ {l : List (κ × α)}, lookupKey k l = some v → (k, v) ∈ l := by
  intro l
  induction l with
  | nil => intro h; simp [lookupKey] at h
  | cons p t ih =>
    intro h
    rw [lookupKey] at h
    by_cases hp : p.1 = k
    · rw [if_pos hp] at h
      injection h with h
      have hpv : p = (k, v) := by
        obtain ⟨p1, p2⟩ := p
        simp at hp h
        simp [hp, h]
      rw [hpv]
      exact List.mem_cons_self _ _
    · rw [if_neg hp] at h
      exact List.mem_cons_of_mem _ (ih h)

theorem lookupKey_append_fresh {κ α : Type} [DecidableEq κ] (k : κ) (v : α)
    (l : List (κ × α)) (h : ∀ p ∈ l, p.1 ≠ k) :
    lookupKey k (l ++ [(k, v)]) = some v := by
  induction l with
  | nil => simp [lookupKey]
  | cons p t ih =>
    rw [List.cons_append, lookupKey, if_neg (h p (by simp))]
    exact ih (fun q hq => h q (by simp [hq]))

theorem lookupKey_bindName_self (name : String) (r : Nat) (l : List (String × Nat)) :
    lookupKey name (bindName name r l) = some r := by
  induction l with
  | nil => simp [bindName, lookupKey]
  | cons p t ih =>
    rw [bindName]
    by_cases hp : p.1 = name
    · rw [if_pos hp, lookupKey, if_pos rfl]
    · rw [if_neg hp, lookupKey, if_neg hp]
      exact ih

theorem lookupKey_bindName_other (name n : String) (r : Nat) (l : List (String × Nat))
    (h : n ≠ name) :
    lookupKey n (bindName name r l) = lookupKey n l := by
  have hne : ¬(name = n) := fun hc => h hc.symm
  induction l with
  | nil => simp [bindName, lookupKey, hne]
  | cons p t ih =>
    by_cases hp : p.1 = name
    · rw [bindName, if_pos hp]
      simp only [lookupKey]
      rw [if_neg (show ¬((name, r).1 = n) from hne),
          if_neg (show ¬(p.1 = n) by rw [hp]; exact hne)]
    · rw [bindName, if_neg hp]
      simp only [lookupKey]
      by_cases hn : p.1 = n
      · rw [if_pos hn, if_pos hn]
      · rw [if_neg hn, if_neg hn]
        exact ih

theorem newMailbox_messages (msgs : List Msg) : (newMailbox msgs).messages = msgs := by
  simp [newMailbox, loadIndex, mboxOpen, List.enum_map_snd]

theorem newMailbox_index (msgs : List Msg) :
    (newMailbox msgs).index = List.enumFrom 1 msgs := by
  simp [newMailbox, loadIndex, mboxOpen, List.enum_map_snd]

theorem WF_loadIndex (st : Mailbox) : WF (loadIndex st) := by
  simp [WF, loadIndex]

theorem newMailbox_WF (msgs : List Msg) : WF (newMailbox msgs) :=
  WF_loadIndex _

/-- `occursIn` with an empty needle always succeeds (Python: `"" in s`). -/
theorem occursIn_nil (h : List Char) : occursIn [] h = true := by
  cases h <;> simp [occursIn, leadsWith]

/-- The loop of `search` on an empty query takes the subject branch at every
entry (never touching the payload) and collects every identifier. -/
theorem searchEntries_empty_query (n : Nat) (l : List Msg) :
    searchEntries "" (List.enumFrom n l) = .ok (List.range' n l.length) := by
  induction l generalizing n with
  | nil => simp [searchEntries, List.range']
  | cons m t ih =>
    have hhit : msgSubjectHit "" m = true := by
      simp [msgSubjectHit, pyIn, pyLower, occursIn_nil]
    rw [List.enumFrom_cons, searchEntries, if_pos hhit, ih (n + 1),
        List.length_cons, List.range'_succ]
    rfl

/-! ### Claim theorems -/

/-- C1 (code bug): the first delete on a freshly loaded 3-message folder
does renumber [A, B, C] minus B to [A, C] with ids 1, 2 as the spec says,
but deletes after an earlier delete on the same folder break: ids are
renumbered densely by `_load_index` while the surviving mbox keys are not,
so `del self.mbox[message_id - 1]` hits the wrong key.  Deleting the (valid)
id 2 again raises an uncaught KeyError, and on a 4-message folder deleting
the valid id 3 after id 2 reports success but silently deletes the wrong
message, leaving [A, D] instead of [A, C]. -/
theorem deleteMessage_wrong_key_after_earlier_delete :
    ((deleteMessage true 2 (newMailbox [msgA, msgB, msgC])).1 = .ok ∧
     (deleteMessage true 2 (newMailbox [msgA, msgB, msgC])).2.index
       = [(1, msgA), (2, msgC)]) ∧
    (deleteMessage true 2
       (deleteMessage true 2 (newMailbox [msgA, msgB, msgC])).2).1 = .keyError ∧
    ((deleteMessage true 3
        (deleteMessage true 2 (newMailbox [msgA, msgB, msgC, msgD])).2).1 = .ok ∧
     (deleteMessage true 3
        (deleteMessage true 2 (newMailbox [msgA, msgB, msgC, msgD])).2).2.index
       = [(1, msgA), (2, msgD)]) := by
  decide

/-- C5: identifier density.  In any well-formed store state (as established
by `_load_index` on load), the identifiers in the index are exactly
1..messageCount in order; a fresh load is well-formed; and any completed
`deleteMessage` (any outcome, flush succeeding or not) leaves the store
well-formed, hence dense again.  `getMessageCount` is total by
construction. -/
theorem index_ids_dense (st : Mailbox) (flushOk : Bool) (message_id : Nat)
    (h : WF st) :
    st.index.map Prod.fst = List.range' 1 (getMessageCount st) ∧
    (∀ msgs : List Msg, WF (newMailbox msgs)) ∧
    WF (deleteMessage flushOk message_id st).2 := by
  refine ⟨?_, fun msgs => newMailbox_WF msgs, ?_⟩
  · rw [WF] at h
    rw [h, getMessageCount]
    exact List.enumFrom_map_fst 1 st.messages
  · rw [deleteMessage]
    cases hm : lookupKey message_id st.index with
    | none => exact h
    | some m =>
      cases ht : tocDel (message_id - 1) st.mbox.toc with
      | none => exact h
      | some t =>
        cases flushOk with
        | true => exact WF_loadIndex _
        | false => exact h

/-- C6: delete atomicity under I/O failure.  When the identifier is present
and the mbox deletion reaches the flush, a failing flush surfaces the I/O
error to the caller and leaves the in-memory index, the message list and
the on-disk file exactly as they were; when the flush succeeds, the file
rewrite and the rebuilt index are both installed. -/
theorem deleteMessage_atomic_on_io_failure (st : Mailbox) (message_id : Nat)
    (hmem : lookupKey message_id st.index ≠ none)
    (hkey : tocDel (message_id - 1) st.mbox.toc ≠ none) :
    ((deleteMessage false message_id st).1 = .ioError ∧
     (deleteMessage false message_id st).2.index = st.index ∧
     (deleteMessage false message_id st).2.messages = st.messages ∧
     (deleteMessage false message_id st).2.mbox.file = st.mbox.file) ∧
    (∀ t, tocDel (message_id - 1) st.mbox.toc = some t →
      (deleteMessage true message_id st).1 = .ok ∧
      (deleteMessage true message_id st).2.mbox.file = t.map Prod.snd ∧
      (deleteMessage true message_id st).2.messages = t.map Prod.snd ∧
      (deleteMessage true message_id st).2.index
        = List.enumFrom 1 (t.map Prod.snd)) := by
  obtain ⟨m, hm⟩ := Option.ne_none_iff_exists'.mp hmem
  obtain ⟨t0, ht0⟩ := Option.ne_none_iff_exists'.mp hkey
  constructor
  · rw [deleteMessage, hm, ht0]
    exact ⟨rfl, rfl, rfl, rfl⟩
  · intro t ht
    rw [ht0] at ht
    injection ht with ht
    subst ht
    rw [deleteMessage, hm, ht0]
    simp [loadIndex, mboxFlush]

/-- Witness for C6 at a concrete folder and identifier. -/
theorem deleteMessage_atomic_on_io_failure_witness :
    (lookupKey 1 (newMailbox [msgA, msgB]).index ≠ none ∧
     tocDel 0 (newMailbox [msgA, msgB]).mbox.toc ≠ none) ∧
    (((deleteMessage false 1 (newMailbox [msgA, msgB])).1 = .ioError ∧
      (deleteMessage false 1 (newMailbox [msgA, msgB])).2.index
        = (newMailbox [msgA, msgB]).index ∧
      (deleteMessage false 1 (newMailbox [msgA, msgB])).2.messages
        = (newMailbox [msgA, msgB]).messages ∧
      (deleteMessage false 1 (newMailbox [msgA, msgB])).2.mbox.file
        = (newMailbox [msgA, msgB]).mbox.file) ∧
     (∀ t, tocDel 0 (newMailbox [msgA, msgB]).mbox.toc = some t →
       (deleteMessage true 1 (newMailbox [msgA, msgB])).1 = .ok ∧
       (deleteMessage true 1 (newMailbox [msgA, msgB])).2.mbox.file = t.map Prod.snd ∧
       (deleteMessage true 1 (newMailbox [msgA, msgB])).2.messages = t.map Prod.snd ∧
       (deleteMessage true 1 (newMailbox [msgA, msgB])).2.index
         = List.enumFrom 1 (t.map Prod.snd))) :=
  ⟨⟨by decide, by decide⟩,
   deleteMessage_atomic_on_io_failure (newMailbox [msgA, msgB]) 1
     (by decide) (by decide)⟩

/-- C7: not-found contract.  For any identifier absent from the current
index, `fetchMessage` fails with the not-found failure (and so never
returns message bytes), and `deleteMessage` fails the same way leaving the
whole store state — index, message list, mbox object and file — unchanged. -/
theorem fetch_delete_not_found (st : Mailbox) (message_id : Nat) (flushOk : Bool)
    (h : lookupKey message_id st.index = none) :
    fetchMessage message_id st = .error .notFound ∧
    deleteMessage flushOk message_id st = (.notFound, st) := by
  constructor
  · rw [fetchMessage, h]
  · rw [deleteMessage, h]

/-- Witness for C7: id 999 on a 2-message folder. -/
theorem fetch_delete_not_found_witness :
    lookupKey 999 (newMailbox [msgA, msgB]).index = none ∧
    (fetchMessage 999 (newMailbox [msgA, msgB]) = .error .notFound ∧
     deleteMessage true 999 (newMailbox [msgA, msgB])
       = (.notFound, newMailbox [msgA, msgB])) :=
  ⟨by decide, fetch_delete_not_found (newMailbox [msgA, msgB]) 999 true (by decide)⟩

/-- C8: idempotent folder access.  Two successive `select` calls with the
same name return the same store reference, and the second call changes
nothing: it observes the first call's registration and creates no second
store. -/
theorem select_idempotent (fs : String → List Msg) (acc : Account) (name : String) :
    (select fs name (select fs name acc).1).2 = (select fs name acc).2 ∧
    (select fs name (select fs name acc).1).1 = (select fs name acc).1 := by
  cases h : lookupKey name acc.mailboxes with
  | some r => simp [select, h]
  | none =>
    have h2 := lookupKey_bindName_self name acc.nextRef acc.mailboxes
    simp [select, h, h2]

/-- C9: `create` never fails.  For any directory state it returns success,
rebinds the name to a brand-new store freshly loaded from the folder's
backing file (a reference distinct from every previously registered one),
and leaves every other name's binding unchanged. -/
theorem create_unconditionally_rebinds (fs : String → List Msg) (acc : Account)
    (path : String)
    (hheap : ∀ p ∈ acc.heap, p.1 < acc.nextRef)
    (hdir : ∀ b ∈ acc.mailboxes, b.2 < acc.nextRef) :
    (create fs path acc).2 = true ∧
    lookupKey path (create fs path acc).1.mailboxes = some acc.nextRef ∧
    lookupKey acc.nextRef (create fs path acc).1.heap
      = some (newMailbox (fs path)) ∧
    (∀ r, lookupKey path acc.mailboxes = some r → r ≠ acc.nextRef) ∧
    (∀ n, n ≠ path → lookupKey n (create fs path acc).1.mailboxes
      = lookupKey n acc.mailboxes) := by
  refine ⟨rfl, lookupKey_bindName_self path acc.nextRef acc.mailboxes, ?_, ?_, ?_⟩
  · exact lookupKey_append_fresh acc.nextRef (newMailbox (fs path)) acc.heap
      (fun p hp => Nat.ne_of_lt (hheap p hp))
  · intro r hr
    have := hdir (path, r) (lookupKey_mem hr)
    omega
  · intro n hn
    exact lookupKey_bindName_other path n acc.nextRef acc.mailboxes hn

/-- Witness for C9 on a freshly initialized account. -/
theorem create_unconditionally_rebinds_witness :
    ((∀ p ∈ (newAccount (fun _ => [])).heap, p.1 < (newAccount (fun _ => [])).nextRef) ∧
     (∀ b ∈ (newAccount (fun _ => [])).mailboxes, b.2 < (newAccount (fun _ => [])).nextRef)) ∧
    ((create (fun _ => []) "Archive" (newAccount (fun _ => []))).2 = true ∧
     lookupKey "Archive"
       (create (fun _ => []) "Archive" (newAccount (fun _ => []))).1.mailboxes
       = some (newAccount (fun _ => [])).nextRef ∧
     lookupKey (newAccount (fun _ => [])).nextRef
       (create (fun _ => []) "Archive" (newAccount (fun _ => []))).1.heap
       = some (newMailbox ((fun _ => ([] : List Msg)) "Archive")) ∧
     (∀ r, lookupKey "Archive" (newAccount (fun _ => [])).mailboxes = some r →
        r ≠ (newAccount (fun _ => [])).nextRef) ∧
     (∀ n, n ≠ "Archive" →
        lookupKey n (create (fun _ => []) "Archive" (newAccount (fun _ => []))).1.mailboxes
          = lookupKey n (newAccount (fun _ => [])).mailboxes)) :=
  ⟨⟨by decide, by decide⟩,
   create_unconditionally_rebinds (fun _ => []) (newAccount (fun _ => [])) "Archive"
     (by decide) (by decide)⟩

/-- C10: searching with the empty query returns every identifier of the
folder in ascending order.  No hypothesis on payloads is needed: Python's
`or` short-circuits on the subject test, which the empty string always
passes (even for the defaulted empty subject), so no message body is ever
inspected — the theorem holds even when every payload is multipart. -/
theorem search_empty_query_returns_all (msgs : List Msg) :
    search "" (newMailbox msgs) = .ok (List.range' 1 msgs.length) := by
  rw [search, newMailbox_index]
  exact searchEntries_empty_query 1 msgs

/-- Witness for C5 at a concrete well-formed store. -/
theorem index_ids_dense_witness :
    WF (newMailbox [msgA, msgB, msgC]) ∧
    ((newMailbox [msgA, msgB, msgC]).index.map Prod.fst
       = List.range' 1 (getMessageCount (newMailbox [msgA, msgB, msgC])) ∧
     (∀ msgs : List Msg, WF (newMailbox msgs)) ∧
     WF (deleteMessage true 2 (newMailbox [msgA, msgB, msgC])).2) :=
  ⟨by decide, index_ids_dense (newMailbox [msgA, msgB, msgC]) true 2 (by decide)⟩

/-- When every entry of the index carries a single-part payload, the search
loop raises nothing and collects, in index order, exactly the identifiers
of the entries matching on subject or decoded body. -/
theorem searchEntries_ok (query : String) (l : List (Nat × Msg))
    (h : ∀ p ∈ l, p.2.payload.isSome = true) :
    searchEntries query l
      = .ok ((l.filter (fun p => msgMatches query p.2)).map Prod.fst) := by
  induction l with
  | nil => rfl
  | cons p t ih =>
    obtain ⟨i, m⟩ := p
    have hm : m.payload.isSome = true := h (i, m) (by simp)
    have ht : ∀ q ∈ t, q.2.payload.isSome = true := fun q hq => h q (by simp [hq])
    obtain ⟨bs, hbs⟩ := Option.isSome_iff_exists.mp hm
    by_cases hs : msgSubjectHit query m
    · have hmatch : msgMatches query m = true := by simp [msgMatches, hs]
      rw [searchEntries, if_pos hs, ih ht]
      simp [Except.map, List.filter_cons, hmatch]
    · rw [searchEntries, if_neg hs]
      simp only [hbs]
      by_cases hb : msgBodyHit query bs
      · have hmatch : msgMatches query m = true := by simp [msgMatches, hbs, hb]
        rw [if_pos hb, ih ht]
        simp [Except.map, List.filter_cons, hmatch]
      · have hmatch : msgMatches query m = false := by
          simp [msgMatches, hbs, hb, hs]
        rw [if_neg hb, ih ht]
        simp [List.filter_cons, hmatch]

/-- C2's counterexample: the claim promises that search never raises on any
folder state, but a message whose body is not available as a single byte
payload (a multipart message) makes search raise AttributeError
(`None.decode`) instead of being treated as not matching. -/
theorem search_raises_on_multipart :
    search "x" (newMailbox [multipartA]) = .error .attributeError := by
  decide

/-- C2 (amended): provided every indexed message has a single-part payload,
search never raises and returns the identifiers of the matching messages;
and a single-part message whose payload bytes are entirely undecodable
contributes no body match (ignore-mode decoding drops the bytes), so for a
nonempty query it matches only through its subject. -/
theorem search_total_single_part (st : Mailbox) (query : String)
    (h : ∀ p ∈ st.index, p.2.payload.isSome = true) :
    search query st
      = .ok ((st.index.filter (fun p => msgMatches query p.2)).map Prod.fst) ∧
    (∀ (m : Msg) (bs : List Nat), m.payload = some bs → utf8DecodeIgnore bs = [] →
      query ≠ "" → msgMatches query m = msgSubjectHit query m) := by
  constructor
  · exact searchEntries_ok query st.index h
  · intro m bs hbs hdec hq
    have hqd : (pyLower query).data ≠ [] := by
      intro hnil
      apply hq
      apply String.ext
      have : query.data.map Char.toLower = [] := hnil
      simpa using List.map_eq_nil_iff.mp this
    have hbody : msgBodyHit query bs = false := by
      rw [msgBodyHit, hdec]
      have hq2 : query.data.map Char.toLower ≠ [] := by
        simpa [pyLower] using hqd
      cases hcase : query.data.map Char.toLower with
      | nil => exact absurd hcase hq2
      | cons c cs => simp [pyIn, pyLower, occursIn, leadsWith, hcase]
    simp [msgMatches, hbs, hbody]

/-- Witness for C2 on a folder holding an undecodable-payload message and a
subjectless message, with a query matching only the second body. -/
theorem search_total_single_part_witness :
    (∀ p ∈ (newMailbox [badBytesMsg, worldMsg]).index, p.2.payload.isSome = true) ∧
    (search "wor" (newMailbox [badBytesMsg, worldMsg])
       = .ok (((newMailbox [badBytesMsg, worldMsg]).index.filter
                 (fun p => msgMatches "wor" p.2)).map Prod.fst) ∧
     (∀ (m : Msg) (bs : List Nat), m.payload = some bs → utf8DecodeIgnore bs = [] →
       "wor" ≠ "" → msgMatches "wor" m = msgSubjectHit "wor" m)) :=
  ⟨by decide, search_total_single_part (newMailbox [badBytesMsg, worldMsg]) "wor" (by decide)⟩

/-- C4's counterexample: the claim promises that search returns exactly the
matching identifiers for every folder state, but on a folder holding a
matching message followed by a multipart one it raises AttributeError
instead of returning the matching identifier. -/
theorem search_raises_despite_match :
    msgMatches "invoice" invoiceMsg = true ∧
    search "invoice" (newMailbox [invoiceMsg, multipartA]) = .error .attributeError := by
  constructor
  · decide
  · decide

/-- C4 (amended): on a well-formed store whose messages all carry a
single-part payload, search returns identifiers in strictly ascending
order, containing exactly the identifiers of the indexed messages whose
subject or ignore-decoded body contains the query case-insensitively — in
particular an empty sequence, not an error, when nothing matches. -/
theorem search_returns_matching_ids (st : Mailbox) (query : String) (hwf : WF st)
    (h : ∀ m ∈ st.messages, m.payload.isSome = true) :
    ∃ ids, search query st = .ok ids ∧
      List.Pairwise (fun a b => a < b) ids ∧
      (∀ i, i ∈ ids ↔ ∃ m, (i, m) ∈ st.index ∧ msgMatches query m = true) := by
  have hidx : ∀ p ∈ st.index, p.2.payload.isSome = true := by
    intro p hp
    rw [WF] at hwf
    rw [hwf] at hp
    obtain ⟨i, m⟩ := p
    obtain ⟨-, hlt, hx⟩ := List.mem_enumFrom hp
    rw [hx]
    exact h _ (List.getElem_mem _)
  refine ⟨_, searchEntries_ok query st.index hidx, ?_, ?_⟩
  · have hsub : ((st.index.filter (fun p => msgMatches query p.2)).map Prod.fst).Sublist
        (st.index.map Prod.fst) := (List.filter_sublist st.index).map Prod.fst
    have hpw : List.Pairwise (fun a b => a < b) (st.index.map Prod.fst) := by
      rw [WF] at hwf
      rw [hwf, List.enumFrom_map_fst]
      exact List.pairwise_lt_range' 1 st.messages.length 1 Nat.one_pos
    exact List.Pairwise.sublist hsub hpw
  · intro i
    simp only [List.mem_map, List.mem_filter]
    constructor
    · rintro ⟨p, ⟨hp, hmatch⟩, hfst⟩
      obtain ⟨j, m⟩ := p
      cases hfst
      exact ⟨m, hp, hmatch⟩
    · rintro ⟨m, hm, hmatch⟩
      exact ⟨(i, m), ⟨hm, hmatch⟩, rfl⟩

/-- Witness for C4 on the spec's example folder: a message with subject
"Invoice #4" and body "thanks" is found by "invoice" and by "THANKS" and
not by "refund", and the general theorem applies to it. -/
theorem search_returns_matching_ids_witness :
    (WF (newMailbox [invoiceMsg]) ∧
     (∀ m ∈ (newMailbox [invoiceMsg]).messages, m.payload.isSome = true)) ∧
    (∃ ids, search "invoice" (newMailbox [invoiceMsg]) = .ok ids ∧
      List.Pairwise (fun a b => a < b) ids ∧
      (∀ i, i ∈ ids ↔ ∃ m, (i, m) ∈ (newMailbox [invoiceMsg]).index ∧
        msgMatches "invoice" m = true)) ∧
    search "invoice" (newMailbox [invoiceMsg]) = .ok [1] ∧
    search "THANKS" (newMailbox [invoiceMsg]) = .ok [1] ∧
    search "refund" (newMailbox [invoiceMsg]) = .ok [] :=
  ⟨⟨by decide, by decide⟩,
   search_returns_matching_ids (newMailbox [invoiceMsg]) "invoice" (by decide) (by decide),
   by decide, by decide, by decide⟩

/-! ### Round-trip of parsing and re-serialization (C3) -/

theorem takeWhile_all_append {p : Char → Bool} {xs ys : List Char}
    (h : ∀ x ∈ xs, p x = true) :
    List.takeWhile p (xs ++ ys) = xs ++ List.takeWhile p ys := by
  induction xs with
  | nil => simp
  | cons a t ih =>
    have ha := h a (by simp)
    simp [List.takeWhile_cons, ha, ih (fun x hx => h x (by simp [hx]))]

theorem dropWhile_all_append {p : Char → Bool} {xs ys : List Char}
    (h : ∀ x ∈ xs, p x = true) :
    List.dropWhile p (xs ++ ys) = List.dropWhile p ys := by
  induction xs with
  | nil => simp
  | cons a t ih =>
    have ha := h a (by simp)
    simp [List.dropWhile_cons, ha, ih (fun x hx => h x (by simp [hx]))]

theorem splitAtNewline_append (l r : List Char) (h : ∀ c ∈ l, ¬(c = '\n')) :
    splitAtNewline (l ++ '\n' :: r) = some (l, r) := by
  induction l with
  | nil => simp [splitAtNewline]
  | cons a t ih =>
    have ha : ¬(a = '\n') := h a (by simp)
    have ih2 := ih (fun c hc => h c (by simp [hc]))
    simp [splitAtNewline, ha, ih2]

theorem parseHeaderLine_render (n v : String) (h : wfHeader (n, v) = true) :
    parseHeaderLine (n.data ++ ':' :: ' ' :: v.data) = some (n, v) := by
  simp only [wfHeader, Bool.and_eq_true, Bool.not_eq_true', List.isEmpty_eq_false,
    List.all_eq_true] at h
  obtain ⟨⟨⟨⟨⟨hne, hname⟩, hval⟩, hhead⟩, hct⟩, hcte⟩ := h
  have hname58 : ∀ c ∈ n.data, (fun c => c.toNat != 58) c = true := by
    intro c hc
    have := hname c hc
    simp only [headerNameChar, Bool.and_eq_true] at this
    simpa using this.2
  rw [parseHeaderLine]
  simp only [takeWhile_all_append hname58, dropWhile_all_append hname58]
  have hcolon : List.takeWhile (fun c => c.toNat != 58) (':' :: ' ' :: v.data) = [] := by
    simp [List.takeWhile_cons]
  have hcolon2 : List.dropWhile (fun c => c.toNat != 58) (':' :: ' ' :: v.data)
      = ':' :: ' ' :: v.data := by
    simp [List.dropWhile_cons]
  rw [hcolon, hcolon2, List.append_nil]
  simp only []
  rw [if_neg (by simpa [List.isEmpty_iff] using hne)]
  rw [if_pos (List.all_eq_true.mpr hname)]
  have hdrop : List.dropWhile (fun c => c == ' ' || c == '\t') (' ' :: v.data)
      = v.data := by
    rw [List.dropWhile_cons, if_pos (by simp)]
    cases hv : v.data with
    | nil => simp
    | cons c cs =>
      rw [hv] at hhead
      rw [List.dropWhile_cons, if_neg (by simpa using hhead)]
  rw [hdrop]

theorem parseLinesF_messageChars (hs : List (String × String)) (body : String)
    (hwf : ∀ hd ∈ hs, wfHeader hd = true) :
    ∀ fuel, (messageChars hs body).length < fuel →
      parseLinesF fuel (messageChars hs body) = some (hs, body) := by
  induction hs with
  | nil =>
    intro fuel hf
    cases fuel with
    | zero => simp at hf
    | succ f =>
      have hsplit : splitAtNewline (messageChars [] body) = some ([], body.data) := by
        simp [messageChars, splitAtNewline]
      simp [parseLinesF, hsplit]
  | cons hd hs ih =>
    intro fuel hf
    cases fuel with
    | zero => simp at hf
    | succ f =>
      obtain ⟨n, v⟩ := hd
      have hwfhd : wfHeader (n, v) = true := hwf (n, v) (by simp)
      have hshape : messageChars ((n, v) :: hs) body
          = (n.data ++ ':' :: ' ' :: v.data) ++ '\n' :: messageChars hs body := by
        simp [messageChars, headerLineChars, List.flatten_cons, List.append_assoc]
      have hnl : ∀ c ∈ n.data ++ ':' :: ' ' :: v.data, ¬(c = '\n') := by
        have hw := hwfhd
        simp only [wfHeader, Bool.and_eq_true, List.all_eq_true, decide_eq_true_eq] at hw
        intro c hc hceq
        subst hceq
        rcases List.mem_append.mp hc with hcn | hcr
        · have := hw.1.1.1.1.2 _ hcn
          simp only [headerNameChar, Bool.and_eq_true, decide_eq_true_eq] at this
          have h10 : Char.toNat '\n' = 10 := rfl
          omega
        · simp only [List.mem_cons] at hcr
          rcases hcr with hcr | hcr | hcv
          · exact absurd hcr (by decide)
          · exact absurd hcr (by decide)
          · have := hw.1.1.1.2 _ hcv
            simp only [Bool.and_eq_true, decide_eq_true_eq, bne_iff_ne] at this
            exact this.2 rfl
      have hsplit : splitAtNewline (messageChars ((n, v) :: hs) body)
          = some (n.data ++ ':' :: ' ' :: v.data, messageChars hs body) := by
        rw [hshape]
        exact splitAtNewline_append _ _ hnl
      have hlen : (messageChars hs body).length < f := by
        rw [hshape] at hf
        simp only [List.length_append, List.length_cons] at hf
        omega
      have hrec := ih (fun hd2 h2 => hwf hd2 (by simp [h2])) f hlen
      have hne : (n.data ++ ':' :: ' ' :: v.data).isEmpty = false := by
        cases hn : n.data <;> simp [hn]
      simp [parseLinesF, hsplit, hne, parseHeaderLine_render n v hwfhd, hrec]

theorem utf8EncodeChar_ascii (c : Char) (h : c.toNat < 128) :
    utf8EncodeChar c = [c.toNat] := by
  simp [utf8EncodeChar, h]

theorem utf8Encode_ascii (s : String) (h : ∀ c ∈ s.data, c.toNat < 128) :
    utf8Encode s = s.data.map Char.toNat := by
  rw [utf8Encode]
  suffices hgen : ∀ l : List Char, (∀ c ∈ l, c.toNat < 128) →
      (l.map utf8EncodeChar).flatten = l.map Char.toNat from hgen s.data h
  intro l hl
  induction l with
  | nil => rfl
  | cons c t ih =>
    simp [utf8EncodeChar_ascii c (hl c (by simp)),
      ih (fun d hd => hl d (by simp [hd]))]

theorem messageChars_ascii (m : SimpleMsg) (h : wellFormed m = true) :
    ∀ c ∈ (asStringSimple m).data, c.toNat < 128 := by
  simp only [wellFormed, Bool.and_eq_true, List.all_eq_true, decide_eq_true_eq] at h
  obtain ⟨⟨hhdr, hbody⟩, -⟩ := h
  intro c hc
  simp only [asStringSimple, messageChars] at hc
  rcases List.mem_append.mp hc with hcf | hcb
  · obtain ⟨l, hl, hcl⟩ := List.mem_flatten.mp hcf
    obtain ⟨hd, hhd, rfl⟩ := List.mem_map.mp hl
    have hw := hhdr hd hhd
    simp only [wfHeader, Bool.and_eq_true, List.all_eq_true, decide_eq_true_eq] at hw
    simp only [headerLineChars, List.append_assoc, List.mem_append, List.mem_cons,
      List.mem_singleton] at hcl
    rcases hcl with hcn | hcl
    · have := hw.1.1.1.1.2 _ hcn
      simp only [headerNameChar, Bool.and_eq_true, decide_eq_true_eq] at this
      omega
    · rcases hcl with hcl | hcl
      · rcases hcl with rfl | hcl
        · decide
        · rcases hcl with rfl | hempty
          · decide
          · simp at hempty
      · rcases hcl with hcv | hcl
        · exact (hw.1.1.1.2 _ hcv).1
        · rcases hcl with rfl | hempty
          · decide
          · simp at hempty
  · rcases List.mem_cons.mp hcb with rfl | hcb
    · decide
    · exact hbody c hcb

theorem parseSimple_render (m : SimpleMsg) (h : wellFormed m = true) :
    parseSimple (utf8Encode (asStringSimple m)) = some m := by
  have hascii := messageChars_ascii m h
  rw [utf8Encode_ascii _ hascii, parseSimple]
  have hall : ((asStringSimple m).data.map Char.toNat).all (fun b => b < 128) = true := by
    rw [List.all_eq_true]
    intro b hb
    obtain ⟨c, hc, rfl⟩ := List.mem_map.mp hb
    simpa using hascii c hc
  rw [if_pos hall]
  have hmap : ((asStringSimple m).data.map Char.toNat).map Char.ofNat
      = (asStringSimple m).data := by
    rw [List.map_map]
    have : (Char.ofNat ∘ Char.toNat) = id := by
      funext c
      simp [Char.ofNat_toNat]
    rw [this, List.map_id]
  rw [hmap]
  have hwfh : ∀ hd ∈ m.headers, wfHeader hd = true := by
    have h2 := h
    simp only [wellFormed, Bool.and_eq_true, List.all_eq_true] at h2
    exact h2.1.1
  have hp : parseLines (asStringSimple m).data = some (m.headers, m.body) := by
    rw [parseLines]
    have hdata : (asStringSimple m).data = messageChars m.headers m.body := rfl
    rw [hdata]
    exact parseLinesF_messageChars m.headers m.body hwfh _ (by omega)
  rw [hp]
  have hct : m.headers.all (fun hd => pyLower hd.1 != "content-type" &&
      pyLower hd.1 != "content-transfer-encoding") = true := by
    rw [List.all_eq_true]
    intro hd hhd
    have hw := hwfh hd hhd
    simp only [wfHeader, Bool.and_eq_true] at hw
    simp [hw.1.2, hw.2]
  simp [hct]

/-- C3's counterexample: the bytes "Subject:hi\n\nb\n" appended for a
message parse to the handle with subject value "hi", but fetching the
message back returns the re-serialized bytes "Subject: hi\n\nb\n", which
are not the appended bytes.  `fetchMessage` returns
`as_string().encode("utf-8")`, not the raw bytes. -/
theorem fetch_not_byte_identical :
    parseSimple (utf8Encode "Subject:hi\n\nb\n")
      = some ⟨[("Subject", "hi")], "b\n"⟩ ∧
    fetchMessage 1 (newMailbox [toMsg ⟨[("Subject", "hi")], "b\n"⟩])
      = .ok (utf8Encode "Subject: hi\n\nb\n") ∧
    utf8Encode "Subject: hi\n\nb\n" ≠ utf8Encode "Subject:hi\n\nb\n" := by
  exact ⟨by decide, by decide, by decide⟩

/-- C3 (amended): `fetchMessage` after a fresh load returns the UTF-8
encoding of the parsed message's canonical re-serialization.  This is
byte-identical to the appended bytes exactly when the message was appended
in canonical form: for canonical (well-formed) messages the appended block
`utf8Encode (asStringSimple m)` parses back to `m` and fetch returns that
very byte sequence, while for non-canonical blocks the returned bytes
differ (see the counterexample). -/
theorem fetch_returns_reserialized_bytes (ms : List SimpleMsg) (i : Nat)
    (hi : i < ms.length) (hwf : ∀ m ∈ ms, wellFormed m = true) :
    parseSimple (utf8Encode (asStringSimple ms[i])) = some ms[i] ∧
    fetchMessage (i + 1) (newMailbox (ms.map toMsg))
      = .ok (utf8Encode (asStringSimple ms[i])) := by
  constructor
  · exact parseSimple_render _ (hwf _ (List.getElem_mem hi))
  · rw [fetchMessage, newMailbox_index]
    have hi2 : i < (ms.map toMsg).length := by simpa using hi
    have hl := lookupKey_enumFrom (ms.map toMsg) 1 i hi2
    rw [show i + 1 = 1 + i by omega, hl, List.getElem_map]
    rfl

/-- Witness for C3 on a one-message folder holding a canonical message. -/
theorem fetch_returns_reserialized_bytes_witness :
    (0 < ([⟨[("Subject", "hi")], "b\n"⟩] : List SimpleMsg).length ∧
     (∀ m ∈ ([⟨[("Subject", "hi")], "b\n"⟩] : List SimpleMsg), wellFormed m = true)) ∧
    (parseSimple (utf8Encode (asStringSimple ([⟨[("Subject", "hi")], "b\n"⟩] :
        List SimpleMsg)[0])) = some ([⟨[("Subject", "hi")], "b\n"⟩] :
        List SimpleMsg)[0] ∧
     fetchMessage (0 + 1) (newMailbox (([⟨[("Subject", "hi")], "b\n"⟩] :
        List SimpleMsg).map toMsg))
       = .ok (utf8Encode (asStringSimple ([⟨[("Subject", "hi")], "b\n"⟩] :
        List SimpleMsg)[0]))) :=
  ⟨⟨by decide, by decide⟩,
   fetch_returns_reserialized_bytes [⟨[("Subject", "hi")], "b\n"⟩] 0
     (by decide) (by decide)⟩

end PyMailArchive
